import Mathlib

/-!
Verification of the coffee-catalog CRUD service (src/main.py) against its
specification. The five handlers are embedded shallowly as pure functions on an
explicit state (database table plus upload-directory filesystem); the abarorm
SQLite storage adapter is an external collaborator and is modelled from the
spec's storage-adapter contract.
-/

namespace CoffeeApi

/-- Bytes of an uploaded file, each entry one byte value. -/
abbrev Bytes := List Nat

/-- The string "/" used by path splitting. -/
def slash : String := "/"

/-- The empty string. -/
def emptyStr : String := ""

/-- The fixed upload directory, src/main.py line 70. -/
def UPLOAD_DIR : String := "uploads"

/-- The public URL form's leading part used when rewriting stored image
paths, src/main.py lines 127 and 184. -/
def uploadsUrlRoot : String := "/uploads/"

/-- The slash character. -/
def slashChar : Char := '/'

/-- The 404 detail message, src/main.py lines 125, 148, 191. -/
def notFoundDetail : String := "Coffee not found"

/-- The confirmation payload of a successful delete, src/main.py line 198. -/
def deletedDetail : String := "Coffee deleted successfully"

/-- Python os.path.join on two components: an absolute second component
discards the first; otherwise the components are joined with a slash unless
the first already ends in one or is empty. -/
def osPathJoin (a b : String) : String :=
  if b.startsWith slash then b
  else if a = emptyStr then b
  else if a.endsWith slash then a ++ b
  else a ++ slash ++ b

/-- Python os.path.basename: the part of the path after its final slash. -/
def basename (p : String) : String :=
  (p.splitOn slash).getLastD emptyStr

/-- The persisted fields of one coffee row, mirroring class Coffee
(src/main.py lines 15-26). Python floats (rate, price) carry no arithmetic in
this program, only storage and round-tripping, so they are embedded as ℚ. -/
structure Coffee where
  coffeeName : String
  coffeeType : String
  rate : Rat
  commentCount : Int
  image : String
  price : Rat
  isLiked : Bool
  desc : String
  buyCount : Int
  coffeeShopLocation : String
  coffeeAddress : String
deriving DecidableEq

/-- The required multipart form fields of the create endpoint, src/main.py
lines 80-89 (everything but the file). -/
structure CoffeeForm where
  coffeeName : String
  coffeeType : String
  rate : Rat
  commentCount : Int
  price : Rat
  isLiked : Bool
  desc : String
  buyCount : Int
  coffeeShopLocation : String
  coffeeAddress : String
deriving DecidableEq

/-- An uploaded file: its client-supplied original filename and its bytes. -/
structure Upload where
  filename : String
  content : Bytes
deriving DecidableEq

/-- The optional update parameters of the PUT endpoint, src/main.py
lines 132-141: absent parameters arrive as None, embedded as none. -/
structure CoffeeUpdate where
  coffeeName : Option String
  coffeeType : Option String
  rate : Option Rat
  commentCount : Option Int
  price : Option Rat
  isLiked : Option Bool
  desc : Option String
  buyCount : Option Int
  coffeeShopLocation : Option String
  coffeeAddress : Option String
deriving DecidableEq

/-- The all-absent update input: a PUT request providing no fields. -/
def CoffeeUpdate.empty : CoffeeUpdate :=
  ⟨none, none, none, none, none, none, none, none, none, none⟩

/-- The coffee fields built by create_coffee from its form fields and the
saved image path (the coffee_data dict, src/main.py lines 98-110). -/
def CoffeeForm.toCoffee (form : CoffeeForm) (imagePath : String) : Coffee :=
  { coffeeName := form.coffeeName
    coffeeType := form.coffeeType
    rate := form.rate
    commentCount := form.commentCount
    image := imagePath
    price := form.price
    isLiked := form.isLiked
    desc := form.desc
    buyCount := form.buyCount
    coffeeShopLocation := form.coffeeShopLocation
    coffeeAddress := form.coffeeAddress }

/-- A response body carrying a record: its id plus its fields
(CoffeeResponse, src/main.py lines 59-64). -/
structure CoffeeResponse where
  id : Nat
  fields : Coffee
deriving DecidableEq

/-- An HTTPException: status code and detail message. -/
structure HErr where
  status : Nat
  detail : String
deriving DecidableEq

/-- The NotFound error raised by the three by-id handlers. -/
def notFound : HErr := ⟨404, notFoundDetail⟩

/-- The upload directory's filesystem, as an association list from path to
file bytes; at most one entry per path is ever kept. -/
abbrev Fs := List (String × Bytes)

/-- Look up the bytes stored at a path. -/
def fsLookup : Fs → String → Option Bytes
  | [], _ => none
  | e :: es, p => if e.1 = p then some e.2 else fsLookup es p

/-- os.path.exists on the modelled filesystem. -/
def fsExists (fs : Fs) (p : String) : Bool :=
  (fsLookup fs p).isSome

/-- Drop every entry stored under a path. -/
def removeKey : Fs → String → Fs
  | [], _ => []
  | e :: es, p => if e.1 = p then removeKey es p else e :: removeKey es p

/-- Model of writing a file: opening the path for binary write and writing
all bytes creates the file or silently overwrites an existing one. -/
def fsWrite (fs : Fs) (p : String) (b : Bytes) : Fs :=
  (p, b) :: removeKey fs p

/-- os.remove on the modelled filesystem. -/
def fsRemove (fs : Fs) (p : String) : Fs :=
  removeKey fs p

/-- Modelled from the spec: the abarorm SQLite storage adapter (class Coffee's
SQLiteModel base) is not part of src/; spec §1 treats it as an external
pre-built row store and §4.1 gives its contract. A table is the list of rows
keyed by integer id together with the next id the store will assign; ids are
storage-assigned, unique, and strictly increasing (spec §8), starting at 1. -/
structure Db where
  nextId : Nat
  rows : List (Nat × Coffee)
deriving DecidableEq

/-- The empty table, as after Coffee.create_table() on a fresh database. -/
def Db.empty : Db := ⟨1, []⟩

/-- First row with the given id, if any. -/
def rowsGet : List (Nat × Coffee) → Nat → Option Coffee
  | [], _ => none
  | r :: rs, id => if r.1 = id then some r.2 else rowsGet rs id

/-- Modelled from the spec: storage getById returns the record or an absent
signal (spec §4.1). -/
def dbGet (db : Db) (id : Nat) : Option Coffee :=
  rowsGet db.rows id

/-- Modelled from the spec: storage create inserts a new row, assigns the next
identifier and returns it (spec §4.1, §8). -/
def dbCreate (db : Db) (c : Coffee) : Db × Nat :=
  (⟨db.nextId + 1, db.rows ++ [(db.nextId, c)]⟩, db.nextId)

/-- Modelled from the spec: storage listAll returns all records (spec §4.1). -/
def dbListAll (db : Db) : List (Nat × Coffee) :=
  db.rows

/-- Modelled from the spec: saving a fetched-and-mutated record persists its
current state under its id (spec §4.1 update). -/
def dbUpdate (db : Db) (id : Nat) (c : Coffee) : Db :=
  ⟨db.nextId, db.rows.map (fun r => if r.1 = id then (id, c) else r)⟩

/-- Drop every row keyed by the given id. -/
def rowsDelete : List (Nat × Coffee) → Nat → List (Nat × Coffee)
  | [], _ => []
  | r :: rs, id => if r.1 = id then rowsDelete rs id else r :: rowsDelete rs id

/-- Modelled from the spec: storage deleteById removes the row (spec §4.1). -/
def dbDelete (db : Db) (id : Nat) : Db :=
  ⟨db.nextId, rowsDelete db.rows id⟩

/-- The whole service state: the coffee table and the upload directory. -/
structure St where
  db : Db
  fs : Fs
deriving DecidableEq

/-- POST /coffees/ (create_coffee, src/main.py lines 78-113): saves the upload
to os.path.join(UPLOAD_DIR, filename), then inserts the record whose image is
that path and whose other fields are the form values, and returns it with the
storage-assigned id. -/
def create_coffee (st : St) (form : CoffeeForm) (image : Upload) :
    St × CoffeeResponse :=
  let image_path := osPathJoin UPLOAD_DIR image.filename
  let fs1 := fsWrite st.fs image_path image.content
  let coffee_obj := form.toCoffee image_path
  let created := dbCreate st.db coffee_obj
  (⟨created.1, fs1⟩, ⟨created.2, coffee_obj⟩)

/-- GET /coffees/ (list_coffees, src/main.py lines 115-119): returns all
records exactly as stored. -/
def list_coffees (st : St) : St × List (Nat × Coffee) :=
  (st, dbListAll st.db)

/-- GET /coffees/{id} (get_coffee, src/main.py lines 121-128): 404 when
absent; otherwise returns the record with image rewritten to
"/uploads/" ++ basename. -/
def get_coffee (st : St) (coffee_id : Nat) : St × Except HErr CoffeeResponse :=
  match dbGet st.db coffee_id with
  | none => (st, Except.error notFound)
  | some coffee =>
      (st, Except.ok ⟨coffee_id,
        { coffee with image := uploadsUrlRoot ++ basename coffee.image }⟩)

/-- The field-merge step of update_coffee (src/main.py lines 151-170): each
provided parameter replaces the record's field, absent ones leave it. -/
def applyUpdate (c : Coffee) (u : CoffeeUpdate) : Coffee :=
  { coffeeName := u.coffeeName.getD c.coffeeName
    coffeeType := u.coffeeType.getD c.coffeeType
    rate := u.rate.getD c.rate
    commentCount := u.commentCount.getD c.commentCount
    image := c.image
    price := u.price.getD c.price
    isLiked := u.isLiked.getD c.isLiked
    desc := u.desc.getD c.desc
    buyCount := u.buyCount.getD c.buyCount
    coffeeShopLocation := u.coffeeShopLocation.getD c.coffeeShopLocation
    coffeeAddress := u.coffeeAddress.getD c.coffeeAddress }

/-- PUT /coffees/{id} (update_coffee, src/main.py lines 129-185): 404 when
absent; otherwise merges provided fields, saves a provided file and overwrites
the image path, persists the record, and returns it with image rewritten to
"/uploads/" ++ basename. -/
def update_coffee (st : St) (coffee_id : Nat) (u : CoffeeUpdate)
    (image : Option Upload) : St × Except HErr CoffeeResponse :=
  match dbGet st.db coffee_id with
  | none => (st, Except.error notFound)
  | some coffee =>
      let merged := applyUpdate coffee u
      let step :=
        match image with
        | none => (st.fs, merged)
        | some img =>
            let image_path := osPathJoin UPLOAD_DIR img.filename
            (fsWrite st.fs image_path img.content,
             { merged with image := image_path })
      let db1 := dbUpdate st.db coffee_id step.2
      (⟨db1, step.1⟩, Except.ok ⟨coffee_id,
        { step.2 with image := uploadsUrlRoot ++ basename step.2.image }⟩)

/-- DELETE /coffees/{id} (delete_coffee, src/main.py lines 187-198): 404 when
absent; otherwise removes the backing image file when present, deletes the
row, and returns the detail string of the confirmation payload. -/
def delete_coffee (st : St) (coffee_id : Nat) : St × Except HErr String :=
  match dbGet st.db coffee_id with
  | none => (st, Except.error notFound)
  | some coffee =>
      let fs1 :=
        if fsExists st.fs coffee.image then fsRemove st.fs coffee.image
        else st.fs
      (⟨dbDelete st.db coffee_id, fs1⟩, Except.ok deletedDetail)

/-- One inbound API call, as decoded by the HTTP surface. -/
inductive Op where
  | createOp (form : CoffeeForm) (image : Upload)
  | listOp
  | getOp (id : Nat)
  | updateOp (id : Nat) (u : CoffeeUpdate) (image : Option Upload)
  | deleteOp (id : Nat)

/-- Dispatch one API call: the state it leaves and the identifiers assigned
during it (the id returned by create, nothing for the other endpoints). -/
def step (st : St) : Op → St × List Nat
  | Op.createOp f i => ((create_coffee st f i).1, [(create_coffee st f i).2.id])
  | Op.listOp => ((list_coffees st).1, [])
  | Op.getOp id => ((get_coffee st id).1, [])
  | Op.updateOp id u i => ((update_coffee st id u i).1, [])
  | Op.deleteOp id => ((delete_coffee st id).1, [])

/-- Run a sequence of API calls, collecting the created ids in call order. -/
def runOps (st : St) : List Op → St × List Nat
  | [] => (st, [])
  | op :: ops =>
      let s := step st op
      let r := runOps s.1 ops
      (r.1, s.2 ++ r.2)

/-- A sample record used to instantiate theorems with hypotheses. -/
def cW : Coffee :=
  { coffeeName := "Latte"
    coffeeType := "Espresso"
    rate := 4
    commentCount := 2
    image := "uploads/latte.png"
    price := 9
    isLiked := true
    desc := "tasty"
    buyCount := 3
    coffeeShopLocation := "downtown"
    coffeeAddress := "main st 1" }

/-- A sample service state holding record 1 and its image file. -/
def stW : St := ⟨⟨2, [(1, cW)]⟩, [("uploads/latte.png", [1, 2, 3])]⟩

/-- A sample replacement upload. -/
def upW : Upload := ⟨"mocha.png", [9, 8]⟩

/-- A sample partial update input providing only the rate field. -/
def uW : CoffeeUpdate := { CoffeeUpdate.empty with rate := some 5 }

/-- Removing a path leaves no entry under it. -/
theorem fsLookup_removeKey_self (fs : Fs) (p : String) :
    fsLookup (removeKey fs p) p = none := by
  induction fs with
  | nil => rfl
  | cons e es ih => by_cases he : e.1 = p <;> simp [removeKey, he, fsLookup, ih]

/-- Removing a path leaves every other path untouched. -/
theorem fsLookup_removeKey_ne (fs : Fs) (p q : String) (h : q ≠ p) :
    fsLookup (removeKey fs p) q = fsLookup fs q := by
  induction fs with
  | nil => rfl
  | cons e es ih =>
    by_cases he : e.1 = p
    · have hq : ¬ e.1 = q := by rw [he]; exact fun hh => h hh.symm
      simp [removeKey, he, fsLookup, hq, ih, h, Ne.symm h]
    · by_cases hq : e.1 = q <;> simp [removeKey, he, fsLookup, hq, ih, h, Ne.symm h]

/-- After a write, the written path holds the written bytes. -/
theorem fsLookup_write_self (fs : Fs) (p : String) (b : Bytes) :
    fsLookup (fsWrite fs p b) p = some b := by
  simp [fsWrite, fsLookup]

/-- A write leaves every other path untouched. -/
theorem fsLookup_write_ne (fs : Fs) (p q : String) (b : Bytes) (h : q ≠ p) :
    fsLookup (fsWrite fs p b) q = fsLookup fs q := by
  have hp : ¬ p = q := fun hh => h hh.symm
  simp [fsWrite, fsLookup, hp, fsLookup_removeKey_ne fs p q h]

/-- Persisting a record under an id that resolves makes that id resolve to
exactly the persisted record. -/
theorem rowsGet_update_first (rs : List (Nat × Coffee)) (id : Nat) (c f : Coffee)
    (h : rowsGet rs id = some c) :
    rowsGet (rs.map (fun r => if r.1 = id then (id, f) else r)) id = some f := by
  induction rs with
  | nil => simp [rowsGet] at h
  | cons r rs ih =>
    by_cases hr : r.1 = id
    · simp [rowsGet, hr]
    · simp only [rowsGet, if_neg hr] at h
      simp [rowsGet, hr, ih h]

/-- After deleting an id, that id no longer resolves. -/
theorem rowsGet_delete_self (rs : List (Nat × Coffee)) (id : Nat) :
    rowsGet (rowsDelete rs id) id = none := by
  induction rs with
  | nil => rfl
  | cons r rs ih => by_cases hr : r.1 = id <;> simp [rowsDelete, hr, rowsGet, ih]

/-- Persisting under an id that keys no row rewrites nothing. -/
theorem map_update_of_forall_ne (rs : List (Nat × Coffee)) (id : Nat) (c : Coffee)
    (h : ∀ s ∈ rs, s.1 ≠ id) :
    rs.map (fun r => if r.1 = id then (id, c) else r) = rs := by
  induction rs with
  | nil => rfl
  | cons r rs ih =>
    have h1 : r.1 ≠ id := h r (List.mem_cons_self r rs)
    rw [List.map_cons, if_neg h1, ih (fun s hs => h s (List.mem_cons_of_mem r hs))]

/-- With pairwise-distinct ids, persisting a record equal to the one an id
already resolves to rewrites nothing. -/
theorem map_update_self_of_nodup (rs : List (Nat × Coffee)) (id : Nat) (c : Coffee)
    (hnd : (rs.map Prod.fst).Nodup) (h : rowsGet rs id = some c) :
    rs.map (fun r => if r.1 = id then (id, c) else r) = rs := by
  induction rs with
  | nil => rfl
  | cons r rs ih =>
    rw [List.map_cons, List.nodup_cons] at hnd
    obtain ⟨hr1, hr2⟩ := hnd
    by_cases hr : r.1 = id
    · have hc : c = r.2 := by
        simp only [rowsGet, if_pos hr] at h
        exact (Option.some.injEq _ _ ▸ h).symm
      have htail : ∀ s ∈ rs, s.1 ≠ id := by
        intro s hs hsid
        exact hr1 (hr ▸ hsid ▸ List.mem_map_of_mem Prod.fst hs)
      have hhead : (id, c) = r := by
        rw [← hr, hc]
      rw [List.map_cons, if_pos hr, map_update_of_forall_ne rs id c htail, hhead]
    · simp only [rowsGet, if_neg hr] at h
      rw [List.map_cons, if_neg hr, ih hr2 h]

/-- Merging the all-absent update input changes no field. -/
theorem applyUpdate_empty (c : Coffee) : applyUpdate c CoffeeUpdate.empty = c := rfl

/-- The public URL form never coincides with a path that does not begin with
a slash, its first character. -/
theorem publicUrl_ne_relative (t s : String) (h : s.data.head? ≠ some slashChar) :
    uploadsUrlRoot ++ t ≠ s := by
  intro he
  apply h
  rw [← he]
  rfl

/-- The get handler leaves the service state untouched. -/
theorem get_coffee_state_eq (st : St) (id : Nat) : (get_coffee st id).1 = st := by
  rcases h : dbGet st.db id with _ | c <;> simp [get_coffee, h]

/-- The update handler never changes the next id the store will assign. -/
theorem update_coffee_nextId (st : St) (id : Nat) (u : CoffeeUpdate)
    (img : Option Upload) :
    (update_coffee st id u img).1.db.nextId = st.db.nextId := by
  rcases h : dbGet st.db id with _ | c
  · simp [update_coffee, h]
  · cases img <;> simp [update_coffee, h, dbUpdate]

/-- The delete handler never changes the next id the store will assign. -/
theorem delete_coffee_nextId (st : St) (id : Nat) :
    (delete_coffee st id).1.db.nextId = st.db.nextId := by
  rcases h : dbGet st.db id with _ | c <;> simp [delete_coffee, h, dbDelete]

/-- No API call ever lowers the next id the store will assign. -/
theorem step_nextId_le (st : St) (op : Op) :
    st.db.nextId ≤ (step st op).1.db.nextId := by
  cases op with
  | createOp f i => exact Nat.le_succ _
  | listOp => exact Nat.le_refl _
  | getOp id => rw [step, get_coffee_state_eq]
  | updateOp id u i => rw [step, update_coffee_nextId]
  | deleteOp id => rw [step, delete_coffee_nextId]

/-- Every id an API call assigns is the pre-call next id, and stays below the
post-call next id. -/
theorem step_ids_mem (st : St) (op : Op) :
    ∀ i ∈ (step st op).2, i = st.db.nextId ∧ i < (step st op).1.db.nextId := by
  cases op with
  | createOp f i =>
    intro j hj
    rw [step, List.mem_singleton] at hj
    subst hj
    exact ⟨rfl, Nat.lt_succ_self _⟩
  | listOp => intro j hj; simp [step] at hj
  | getOp id => intro j hj; simp [step] at hj
  | updateOp id u i => intro j hj; simp [step] at hj
  | deleteOp id => intro j hj; simp [step] at hj

/-- No sequence of API calls ever lowers the next id the store will assign. -/
theorem runOps_nextId_le (st : St) (ops : List Op) :
    st.db.nextId ≤ (runOps st ops).1.db.nextId := by
  induction ops generalizing st with
  | nil => exact Nat.le_refl _
  | cons op ops ih => exact le_trans (step_nextId_le st op) (ih (step st op).1)

/-- Every id assigned along a run lies between the starting next id and the
final next id. -/
theorem runOps_ids_bound (st : St) (ops : List Op) :
    ∀ i ∈ (runOps st ops).2,
      st.db.nextId ≤ i ∧ i < (runOps st ops).1.db.nextId := by
  induction ops generalizing st with
  | nil => intro i hi; simp [runOps] at hi
  | cons op ops ih =>
    intro i hi
    have hi2 : i ∈ (step st op).2 ++ (runOps (step st op).1 ops).2 := hi
    rw [List.mem_append] at hi2
    rcases hi2 with h1 | h2
    · obtain ⟨he, hlt⟩ := step_ids_mem st op i h1
      exact ⟨le_of_eq he.symm,
        lt_of_lt_of_le hlt (runOps_nextId_le (step st op).1 ops)⟩
    · obtain ⟨hle, hlt⟩ := ih (step st op).1 i h2
      exact ⟨le_trans (step_nextId_le st op) hle, hlt⟩

/-- A single API call assigns at most one id. -/
theorem step_ids_pairwise (st : St) (op : Op) :
    (step st op).2.Pairwise (· < ·) := by
  cases op <;> simp [step]

/-- C1: on every create request with all form fields and one uploaded file,
create_coffee stores the uploaded bytes at the join of the upload directory
with the upload's original filename, inserts a record whose image field is
exactly that path and whose other fields are the form values, and returns
that record with the storage-assigned identifier. -/
theorem create_coffee_saves_file_and_inserts_record
    (st : St) (form : CoffeeForm) (image : Upload) :
    (create_coffee st form image).1.fs
        = fsWrite st.fs (osPathJoin UPLOAD_DIR image.filename) image.content
    ∧ fsLookup (create_coffee st form image).1.fs
        (osPathJoin UPLOAD_DIR image.filename) = some image.content
    ∧ (create_coffee st form image).1.db.rows
        = st.db.rows
            ++ [(st.db.nextId,
                 form.toCoffee (osPathJoin UPLOAD_DIR image.filename))]
    ∧ (create_coffee st form image).2.id = st.db.nextId
    ∧ (create_coffee st form image).2.fields.image
        = osPathJoin UPLOAD_DIR image.filename
    ∧ (create_coffee st form image).2.fields.coffeeName = form.coffeeName
    ∧ (create_coffee st form image).2.fields.coffeeType = form.coffeeType
    ∧ (create_coffee st form image).2.fields.rate = form.rate
    ∧ (create_coffee st form image).2.fields.commentCount = form.commentCount
    ∧ (create_coffee st form image).2.fields.price = form.price
    ∧ (create_coffee st form image).2.fields.isLiked = form.isLiked
    ∧ (create_coffee st form image).2.fields.desc = form.desc
    ∧ (create_coffee st form image).2.fields.buyCount = form.buyCount
    ∧ (create_coffee st form image).2.fields.coffeeShopLocation
        = form.coffeeShopLocation
    ∧ (create_coffee st form image).2.fields.coffeeAddress = form.coffeeAddress :=
  ⟨rfl, fsLookup_write_self st.fs _ image.content, rfl, rfl, rfl, rfl, rfl, rfl,
   rfl, rfl, rfl, rfl, rfl, rfl, rfl⟩

/-- C2: each of get, update and delete by id fails with HTTP 404 and detail
"Coffee not found" exactly when the id resolves to no record, and produces a
success value exactly when it does. -/
theorem byId_notFound_iff_absent (st : St) (id : Nat) (u : CoffeeUpdate)
    (img : Option Upload) :
    ((get_coffee st id).2 = Except.error notFound ↔ dbGet st.db id = none)
    ∧ ((update_coffee st id u img).2 = Except.error notFound
        ↔ dbGet st.db id = none)
    ∧ ((delete_coffee st id).2 = Except.error notFound ↔ dbGet st.db id = none)
    ∧ ((∃ r, (get_coffee st id).2 = Except.ok r) ↔ dbGet st.db id ≠ none)
    ∧ ((∃ r, (update_coffee st id u img).2 = Except.ok r)
        ↔ dbGet st.db id ≠ none)
    ∧ ((∃ r, (delete_coffee st id).2 = Except.ok r) ↔ dbGet st.db id ≠ none) := by
  rcases h : dbGet st.db id with _ | c
  · simp [get_coffee, update_coffee, delete_coffee, h]
  · cases img <;> simp [get_coffee, update_coffee, delete_coffee, h]

/-- C4: the create response carries the raw storage path and exactly the
fields just stored, and the list endpoint returns the rows exactly as stored,
leaving the state untouched. -/
theorem create_and_list_return_raw_storage_path (st : St) (form : CoffeeForm)
    (image : Upload) :
    (create_coffee st form image).2.fields.image
        = osPathJoin UPLOAD_DIR image.filename
    ∧ (create_coffee st form image).1.db.rows
        = st.db.rows
            ++ [((create_coffee st form image).2.id,
                 (create_coffee st form image).2.fields)]
    ∧ (list_coffees st).2 = st.db.rows
    ∧ (list_coffees st).1 = st :=
  ⟨rfl, rfl, rfl, rfl⟩

/-- C8: deleting an id that resolves to no record returns 404 with detail
"Coffee not found" and leaves the storage and filesystem state exactly as
they were. -/
theorem delete_missing_id_pure_404 (st : St) (id : Nat)
    (h : dbGet st.db id = none) :
    delete_coffee st id = (st, Except.error notFound) := by
  simp [delete_coffee, h]

/-- Witness for C8: deleting the absent id 2 from the sample state reports
404 and changes nothing. -/
theorem delete_missing_id_pure_404_witness :
    dbGet stW.db 2 = none
    ∧ delete_coffee stW 2 = (stW, Except.error notFound) :=
  ⟨by decide, delete_missing_id_pure_404 stW 2 (by decide)⟩

/-- C10: the get-by-id handler is read-only: for every state and id it leaves
the record store and the upload directory exactly as they were. -/
theorem get_coffee_readonly (st : St) (id : Nat) :
    (get_coffee st id).1 = st :=
  get_coffee_state_eq st id

/-- C9: along any sequence of API calls, the identifiers returned by the
create operations, listed in creation order, are strictly increasing and
pairwise distinct; each one is the value the storage layer assigns, never a
value taken from the request. -/
theorem created_ids_strictly_increase (st : St) (ops : List Op) :
    ((runOps st ops).2).Pairwise (· < ·) ∧ ((runOps st ops).2).Nodup := by
  have hp : ∀ s : St, ((runOps s ops).2).Pairwise (· < ·) := by
    induction ops with
    | nil => intro s; simp [runOps]
    | cons op ops ih =>
      intro s
      have hsplit : (runOps s (op :: ops)).2
          = (step s op).2 ++ (runOps (step s op).1 ops).2 := rfl
      rw [hsplit, List.pairwise_append]
      refine ⟨step_ids_pairwise s op, ih (step s op).1, ?_⟩
      intro a ha b hb
      obtain ⟨_, halt⟩ := step_ids_mem s op a ha
      obtain ⟨hble, _⟩ := runOps_ids_bound (step s op).1 ops b hb
      exact lt_of_lt_of_le halt hble
  exact ⟨hp st, (hp st).imp (fun hab => Nat.ne_of_lt hab)⟩

/-- C3: when the record exists, the get response presents image as
"/uploads/" followed by the basename of the stored path, the update response
presents it as "/uploads/" followed by the basename of the path stored after
the update, and in each case this public form differs from that raw stored
path whenever the stored path does not begin with a slash. -/
theorem get_update_image_is_public_url (st : St) (id : Nat) (u : CoffeeUpdate)
    (img : Option Upload) (c : Coffee) (h : dbGet st.db id = some c) :
    (get_coffee st id).2
        = Except.ok ⟨id, { c with image := uploadsUrlRoot ++ basename c.image }⟩
    ∧ (c.image.data.head? ≠ some slashChar →
        uploadsUrlRoot ++ basename c.image ≠ c.image)
    ∧ (∃ c2, dbGet (update_coffee st id u img).1.db id = some c2
        ∧ (update_coffee st id u img).2
            = Except.ok ⟨id,
                { c2 with image := uploadsUrlRoot ++ basename c2.image }⟩
        ∧ (c2.image.data.head? ≠ some slashChar →
            uploadsUrlRoot ++ basename c2.image ≠ c2.image)) := by
  refine ⟨by simp [get_coffee, h],
    fun hh => publicUrl_ne_relative (basename c.image) c.image hh, ?_⟩
  cases img with
  | none =>
    have hdb : (update_coffee st id u none).1.db
        = dbUpdate st.db id (applyUpdate c u) := by
      simp [update_coffee, h]
    refine ⟨applyUpdate c u, ?_, ?_,
      fun hh => publicUrl_ne_relative _ _ hh⟩
    · rw [hdb]
      exact rowsGet_update_first st.db.rows id c (applyUpdate c u) h
    · simp [update_coffee, h]
  | some i =>
    have hdb : (update_coffee st id u (some i)).1.db
        = dbUpdate st.db id
            { applyUpdate c u with image := osPathJoin UPLOAD_DIR i.filename } := by
      simp [update_coffee, h]
    refine ⟨{ applyUpdate c u with
        image := osPathJoin UPLOAD_DIR i.filename }, ?_, ?_,
      fun hh => publicUrl_ne_relative _ _ hh⟩
    · rw [hdb]
      exact rowsGet_update_first st.db.rows id c _ h
    · simp [update_coffee, h]

/-- Witness for C3: on the sample state, get and update (with a replacement
file) both present the image as its public URL form. -/
theorem get_update_image_is_public_url_witness :
    dbGet stW.db 1 = some cW
    ∧ ((get_coffee stW 1).2
        = Except.ok ⟨1, { cW with image := uploadsUrlRoot ++ basename cW.image }⟩
      ∧ (cW.image.data.head? ≠ some slashChar →
          uploadsUrlRoot ++ basename cW.image ≠ cW.image)
      ∧ (∃ c2, dbGet (update_coffee stW 1 uW (some upW)).1.db 1 = some c2
          ∧ (update_coffee stW 1 uW (some upW)).2
              = Except.ok ⟨1,
                  { c2 with image := uploadsUrlRoot ++ basename c2.image }⟩
          ∧ (c2.image.data.head? ≠ some slashChar →
              uploadsUrlRoot ++ basename c2.image ≠ c2.image))) :=
  ⟨by decide, get_update_image_is_public_url stW 1 uW (some upW) cW (by decide)⟩

/-- C5: when the record exists, update changes exactly the provided fields to
the provided values and keeps every absent field unchanged; a provided file
is saved under the upload directory and the record's image field is
overwritten with the new path, while the old image file stays on disk. -/
theorem update_applies_exactly_provided_fields (st : St) (id : Nat)
    (u : CoffeeUpdate) (img : Option Upload) (c : Coffee)
    (h : dbGet st.db id = some c) :
    (∃ c2, dbGet (update_coffee st id u img).1.db id = some c2
      ∧ c2.coffeeName = u.coffeeName.getD c.coffeeName
      ∧ c2.coffeeType = u.coffeeType.getD c.coffeeType
      ∧ c2.rate = u.rate.getD c.rate
      ∧ c2.commentCount = u.commentCount.getD c.commentCount
      ∧ c2.price = u.price.getD c.price
      ∧ c2.isLiked = u.isLiked.getD c.isLiked
      ∧ c2.desc = u.desc.getD c.desc
      ∧ c2.buyCount = u.buyCount.getD c.buyCount
      ∧ c2.coffeeShopLocation = u.coffeeShopLocation.getD c.coffeeShopLocation
      ∧ c2.coffeeAddress = u.coffeeAddress.getD c.coffeeAddress
      ∧ (img = none → c2.image = c.image)
      ∧ (∀ j, img = some j → c2.image = osPathJoin UPLOAD_DIR j.filename))
    ∧ (∀ p ∈ st.db.rows, p.1 ≠ id → p ∈ (update_coffee st id u img).1.db.rows)
    ∧ (img = none → (update_coffee st id u img).1.fs = st.fs)
    ∧ (∀ j, img = some j →
        (update_coffee st id u img).1.fs
            = fsWrite st.fs (osPathJoin UPLOAD_DIR j.filename) j.content
        ∧ fsLookup (update_coffee st id u img).1.fs
            (osPathJoin UPLOAD_DIR j.filename) = some j.content
        ∧ (c.image ≠ osPathJoin UPLOAD_DIR j.filename →
            fsLookup (update_coffee st id u img).1.fs c.image
              = fsLookup st.fs c.image)
        ∧ (fsExists st.fs c.image = true →
            fsExists (update_coffee st id u img).1.fs c.image = true)) := by
  cases img with
  | none =>
    have hdb : (update_coffee st id u none).1.db
        = dbUpdate st.db id (applyUpdate c u) := by
      simp [update_coffee, h]
    have hfs : (update_coffee st id u none).1.fs = st.fs := by
      simp [update_coffee, h]
    refine ⟨⟨applyUpdate c u, ?_, rfl, rfl, rfl, rfl, rfl, rfl, rfl, rfl, rfl,
        rfl, fun _ => rfl, fun j hj => Option.noConfusion hj⟩,
      ?_, fun _ => hfs, fun j hj => Option.noConfusion hj⟩
    · rw [hdb]
      exact rowsGet_update_first st.db.rows id c _ h
    · intro p hp hne
      rw [hdb]
      have hm := List.mem_map_of_mem
        (fun r => if r.1 = id then (id, applyUpdate c u) else r) hp
      have hm2 : (if p.1 = id then (id, applyUpdate c u) else p)
          ∈ st.db.rows.map
            (fun r => if r.1 = id then (id, applyUpdate c u) else r) := hm
      rw [if_neg hne] at hm2
      exact hm2
  | some i =>
    have hdb : (update_coffee st id u (some i)).1.db
        = dbUpdate st.db id
            { applyUpdate c u with
              image := osPathJoin UPLOAD_DIR i.filename } := by
      simp [update_coffee, h]
    have hfs : (update_coffee st id u (some i)).1.fs
        = fsWrite st.fs (osPathJoin UPLOAD_DIR i.filename) i.content := by
      simp [update_coffee, h]
    refine ⟨⟨{ applyUpdate c u with
        image := osPathJoin UPLOAD_DIR i.filename },
        ?_, rfl, rfl, rfl, rfl, rfl, rfl, rfl, rfl, rfl, rfl, ?_, ?_⟩,
      ?_, ?_, ?_⟩
    · rw [hdb]
      exact rowsGet_update_first st.db.rows id c _ h
    · intro hno
      exact Option.noConfusion hno
    · intro j hj
      injection hj with hij
      subst hij
      rfl
    · intro p hp hne
      rw [hdb]
      have hm := List.mem_map_of_mem
        (fun r => if r.1 = id then
          (id, { applyUpdate c u with
                 image := osPathJoin UPLOAD_DIR i.filename }) else r) hp
      have hm2 : (if p.1 = id then
            (id, { applyUpdate c u with
                   image := osPathJoin UPLOAD_DIR i.filename }) else p)
          ∈ st.db.rows.map
            (fun r => if r.1 = id then
              (id, { applyUpdate c u with
                     image := osPathJoin UPLOAD_DIR i.filename }) else r) := hm
      rw [if_neg hne] at hm2
      exact hm2
    · intro hno
      exact Option.noConfusion hno
    · intro j hj
      injection hj with hij
      subst hij
      refine ⟨hfs, ?_, ?_, ?_⟩
      · rw [hfs]
        exact fsLookup_write_self st.fs _ _
      · intro hne
        rw [hfs]
        exact fsLookup_write_ne st.fs _ _ _ hne
      · intro hex
        by_cases hci : c.image = osPathJoin UPLOAD_DIR i.filename
        · rw [hfs, hci]
          simp [fsExists, fsLookup_write_self]
        · rw [hfs]
          simpa [fsExists, fsLookup_write_ne st.fs _ _ i.content hci] using hex

/-- Witness for C5: on the sample state, updating record 1 with only a rate
and a replacement file changes exactly those and keeps the rest. -/
theorem update_applies_exactly_provided_fields_witness :
    dbGet stW.db 1 = some cW
    ∧ ((∃ c2, dbGet (update_coffee stW 1 uW (some upW)).1.db 1 = some c2
        ∧ c2.coffeeName = uW.coffeeName.getD cW.coffeeName
        ∧ c2.coffeeType = uW.coffeeType.getD cW.coffeeType
        ∧ c2.rate = uW.rate.getD cW.rate
        ∧ c2.commentCount = uW.commentCount.getD cW.commentCount
        ∧ c2.price = uW.price.getD cW.price
        ∧ c2.isLiked = uW.isLiked.getD cW.isLiked
        ∧ c2.desc = uW.desc.getD cW.desc
        ∧ c2.buyCount = uW.buyCount.getD cW.buyCount
        ∧ c2.coffeeShopLocation = uW.coffeeShopLocation.getD cW.coffeeShopLocation
        ∧ c2.coffeeAddress = uW.coffeeAddress.getD cW.coffeeAddress
        ∧ (some upW = none → c2.image = cW.image)
        ∧ (∀ j, some upW = some j → c2.image = osPathJoin UPLOAD_DIR j.filename))
      ∧ (∀ p ∈ stW.db.rows, p.1 ≠ 1
          → p ∈ (update_coffee stW 1 uW (some upW)).1.db.rows)
      ∧ (some upW = none → (update_coffee stW 1 uW (some upW)).1.fs = stW.fs)
      ∧ (∀ j, some upW = some j →
          (update_coffee stW 1 uW (some upW)).1.fs
              = fsWrite stW.fs (osPathJoin UPLOAD_DIR j.filename) j.content
          ∧ fsLookup (update_coffee stW 1 uW (some upW)).1.fs
              (osPathJoin UPLOAD_DIR j.filename) = some j.content
          ∧ (cW.image ≠ osPathJoin UPLOAD_DIR j.filename →
              fsLookup (update_coffee stW 1 uW (some upW)).1.fs cW.image
                = fsLookup stW.fs cW.image)
          ∧ (fsExists stW.fs cW.image = true →
              fsExists (update_coffee stW 1 uW (some upW)).1.fs cW.image
                = true))) :=
  ⟨by decide,
   update_applies_exactly_provided_fields stW 1 uW (some upW) cW (by decide)⟩

/-- C6: with pairwise-distinct stored ids, an update providing no fields and
no file leaves the whole service state unchanged and returns the record. -/
theorem update_empty_input_identity (st : St) (id : Nat) (c : Coffee)
    (hnd : (st.db.rows.map Prod.fst).Nodup) (h : dbGet st.db id = some c) :
    update_coffee st id CoffeeUpdate.empty none
      = (st, Except.ok ⟨id,
          { c with image := uploadsUrlRoot ++ basename c.image }⟩) := by
  have hmap := map_update_self_of_nodup st.db.rows id c hnd h
  have hdb : dbUpdate st.db id c = st.db := by
    simp [dbUpdate, hmap]
  simp [update_coffee, h, applyUpdate_empty, hdb]

/-- Witness for C6: the empty update on record 1 of the sample state changes
nothing. -/
theorem update_empty_input_identity_witness :
    (stW.db.rows.map Prod.fst).Nodup
    ∧ dbGet stW.db 1 = some cW
    ∧ update_coffee stW 1 CoffeeUpdate.empty none
        = (stW, Except.ok ⟨1,
            { cW with image := uploadsUrlRoot ++ basename cW.image }⟩) :=
  ⟨by decide, by decide, update_empty_input_identity stW 1 cW (by decide) (by decide)⟩

/-- C7: when the record exists, delete removes the backing image file exactly
when one exists at the stored path and touches no other file, removes the
record, returns the confirmation detail, and a subsequent get of the same id
fails with 404. -/
theorem delete_removes_file_and_record (st : St) (id : Nat) (c : Coffee)
    (h : dbGet st.db id = some c) :
    (delete_coffee st id).2 = Except.ok deletedDetail
    ∧ (delete_coffee st id).1.db = dbDelete st.db id
    ∧ (delete_coffee st id).1.fs
        = (if fsExists st.fs c.image then fsRemove st.fs c.image else st.fs)
    ∧ fsLookup (delete_coffee st id).1.fs c.image = none
    ∧ (∀ q, q ≠ c.image →
        fsLookup (delete_coffee st id).1.fs q = fsLookup st.fs q)
    ∧ dbGet (delete_coffee st id).1.db id = none
    ∧ (get_coffee (delete_coffee st id).1 id).2 = Except.error notFound := by
  have h2 : delete_coffee st id
      = (⟨dbDelete st.db id,
          if fsExists st.fs c.image then fsRemove st.fs c.image else st.fs⟩,
         Except.ok deletedDetail) := by
    simp [delete_coffee, h]
  have hdbn : dbGet (dbDelete st.db id) id = none :=
    rowsGet_delete_self st.db.rows id
  refine ⟨by rw [h2], by rw [h2], by rw [h2], ?_, ?_, ?_, ?_⟩
  · rw [h2]
    by_cases hex : fsExists st.fs c.image
    · simp only [if_pos hex]
      exact fsLookup_removeKey_self st.fs c.image
    · simp only [if_neg hex]
      cases hl : fsLookup st.fs c.image with
      | none => rfl
      | some b => exact absurd (by simp [fsExists, hl]) hex
  · intro q hq
    rw [h2]
    by_cases hex : fsExists st.fs c.image
    · simp only [if_pos hex]
      exact fsLookup_removeKey_ne st.fs c.image q hq
    · simp only [if_neg hex]
  · rw [h2]
    exact hdbn
  · rw [h2]
    simp [get_coffee, hdbn]

/-- Witness for C7: deleting record 1 of the sample state removes its file
and its row, and a following get reports 404. -/
theorem delete_removes_file_and_record_witness :
    dbGet stW.db 1 = some cW
    ∧ ((delete_coffee stW 1).2 = Except.ok deletedDetail
      ∧ (delete_coffee stW 1).1.db = dbDelete stW.db 1
      ∧ (delete_coffee stW 1).1.fs
          = (if fsExists stW.fs cW.image then fsRemove stW.fs cW.image
             else stW.fs)
      ∧ fsLookup (delete_coffee stW 1).1.fs cW.image = none
      ∧ (∀ q, q ≠ cW.image →
          fsLookup (delete_coffee stW 1).1.fs q = fsLookup stW.fs q)
      ∧ dbGet (delete_coffee stW 1).1.db 1 = none
      ∧ (get_coffee (delete_coffee stW 1).1 1).2 = Except.error notFound) :=
  ⟨by decide, delete_removes_file_and_record stW 1 cW (by decide)⟩

end CoffeeApi
